import Mathlib

/-!
Verification development for the Geopolitical-Narrative-System repository,
Stage 3 analysis layer (src/analysis/sentiment.py and src/analysis/emotion.py).

The Python code is shallowly embedded:
* Python floats are modelled as rationals; `round(x, n)` is `roundTo n x`.
* Python dicts are modelled as insertion-ordered association lists
  (`assocGet` / `assocSet` mirror `d.get(k)` / `d[k] = v`).
* The transformer pipeline is an external collaborator and is modelled as an
  explicit classifier function argument returning `Option` (where `none`
  models the classifier raising an exception).
* A record (article) is an association list from keys to `Value`s; the value
  of an analysis sub-map key is a structured view of the Python sub-dict, in
  which the presence of the "overall" key is an `Option`.
* `analyze_text` is embedded together with a classifier call counter
  (`sentiment_analyze_textC` returns the result and the number of
  classifier invocations) so that "without invoking the classifier" is
  expressible.
-/

namespace GNS

/-- Rounding a rational to the nearest integer. -/
def pyRound (q : ℚ) : ℤ := ⌊q + 1 / 2⌋

/-- Rounding to `n` decimal places, modelling the Python `round(x, n)` calls
on the classifier confidence scores (exact rational arithmetic; the rounding
convention at exact half-way points is immaterial to the properties below). -/
def roundTo (n : ℕ) (q : ℚ) : ℚ := (pyRound (q * (10 : ℚ) ^ n) : ℚ) / (10 : ℚ) ^ n

/-- Python truthiness-and-strip test `not text or not text.strip()`:
the text is empty or consists of whitespace only. -/
def pyBlank (t : String) : Bool :=
  t.data.isEmpty || t.data.all (fun ch => ch.isWhitespace)

/-- First-occurrence deduplication, modelling the iteration over a Python
`set(...)` built from a list.  CPython iterates a `set` of strings in an
unspecified (hash-dependent) order; all properties proved about the code
below are independent of the order chosen here. -/
def pyDedup (l : List String) : List String :=
  l.foldl (fun acc x => if x ∈ acc then acc else acc ++ [x]) []

/-- Python `max(iterable, key=key)`: returns the first element attaining the
maximal key (the running maximum is replaced only on a strictly greater key). -/
def pyMaxKey {α β : Type} [LinearOrder β] (key : α → β) : List α → Option α
  | [] => none
  | x :: xs => some (xs.foldl (fun best y => if key best < key y then y else best) x)

/-- `d` splits `l` as a prefix of strictly smaller keys, `d` itself, and a
suffix of keys not exceeding `key d`: exactly the element Python
`max(l, key=key)` returns. -/
def IsFirstMaxKey {α β : Type} [LinearOrder β] (key : α → β) (l : List α) (d : α) : Prop :=
  ∃ l₁ l₂, l = l₁ ++ d :: l₂ ∧ (∀ y ∈ l₁, key y < key d) ∧ (∀ y ∈ l₂, key y ≤ key d)

/-- Python dict read `d.get(k)` on an insertion-ordered association list. -/
def assocGet {α : Type} : List (String × α) → String → Option α
  | [], _ => none
  | (k₀, v) :: rest, k => if k₀ = k then some v else assocGet rest k

/-- Python dict write `d[k] = v`: replaces the value in place if the key is
present (keeping its position), otherwise appends the new pair. -/
def assocSet {α : Type} : List (String × α) → String → α → List (String × α)
  | [], k, v => [(k, v)]
  | (k₀, v₀) :: rest, k, v =>
    if k₀ = k then (k, v) :: rest else (k₀, v₀) :: assocSet rest k v

/-- Fuelled worker for `toChunks`, modelling
`range(0, len(texts), batch_size)` with slices `texts[i:i+batch_size]`
(for a positive batch size; Python raises on a zero step). -/
def toChunksAux {α : Type} (bs : ℕ) : ℕ → List α → List (List α)
  | 0, _ => []
  | _, [] => []
  | fuel + 1, x :: xs => (x :: xs).take bs :: toChunksAux bs fuel ((x :: xs).drop bs)

/-- Splitting a list into consecutive chunks of size `bs` (the fuel
`l.length` always suffices since each step drops at least one element). -/
def toChunks {α : Type} (bs : ℕ) (l : List α) : List (List α) :=
  if bs = 0 then [] else toChunksAux bs l.length l

/-- Result of one sentiment classification: the `{"label": ..., "score": ...}`
dictionary of `SentimentAnalyzer.analyze_text`. -/
structure SentResult where
  label : String
  score : ℚ
deriving DecidableEq

/-- Emotion scores: the label-to-score dictionary produced by
`EmotionAnalyzer.analyze_text` (insertion-ordered). -/
abbrev EmoScores := List (String × ℚ)

/-- The fixed emotion category list `EmotionAnalyzer.EMOTIONS`. -/
def EMOTIONS : List String :=
  ["anger", "disgust", "fear", "joy", "neutral", "sadness", "surprise"]

/-- The zero placeholder `{emotion: 0.0 for emotion in self.EMOTIONS}`. -/
def emotionZero : EmoScores := EMOTIONS.map (fun e => (e, 0))

/-- `SentimentAnalyzer.analyze_text`, instrumented with the number of
classifier invocations (second component).  The classifier argument models
`self.model`; `none` models an exception escaping the call. -/
def sentiment_analyze_textC (c : String → Option SentResult) (text : String) :
    SentResult × ℕ :=
  if pyBlank text then (⟨"NEUTRAL", 0⟩, 0)
  else
    match c (text.take 512) with
    | some r => (⟨r.label, roundTo 4 r.score⟩, 1)
    | none => (⟨"ERROR", 0⟩, 1)

/-- `SentimentAnalyzer.analyze_text`: the returned dictionary. -/
def sentiment_analyze_text (c : String → Option SentResult) (text : String) :
    SentResult :=
  (sentiment_analyze_textC c text).1

/-- `EmotionAnalyzer.analyze_text`, instrumented with the number of classifier
invocations.  The classifier returns the raw label/score list; the code turns
it into a dictionary with 4-decimal rounding, and falls back to the zero
placeholder both for blank input (without a call) and on an exception. -/
def emotion_analyze_textC (c : String → Option (List (String × ℚ))) (text : String) :
    EmoScores × ℕ :=
  if pyBlank text then (emotionZero, 0)
  else
    match c (text.take 512) with
    | some results => (results.map (fun r => (r.1, roundTo 4 r.2)), 1)
    | none => (emotionZero, 1)

/-- `EmotionAnalyzer.analyze_text`: the returned dictionary. -/
def emotion_analyze_text (c : String → Option (List (String × ℚ))) (text : String) :
    EmoScores :=
  (emotion_analyze_textC c text).1

/-- The per-text cleaning in `SentimentAnalyzer.analyze_batch`:
`text[:512] if text and text.strip() else ""`. -/
def cleanText (t : String) : String :=
  if pyBlank t then "" else t.take 512

/-- `SentimentAnalyzer.analyze_batch`: the texts are processed in chunks of
`bs`; a whole-chunk classifier failure (modelled by `none`) appends one ERROR
placeholder per text of that chunk, and the loop continues with the next
chunk. -/
def analyze_batch (c : List String → Option (List SentResult))
    (texts : List String) (bs : ℕ) : List SentResult :=
  (toChunks bs texts).foldl
    (fun results batch =>
      let cleaned := batch.map cleanText
      match c cleaned with
      | some rs => results ++ rs.map (fun r => ⟨r.label, roundTo 4 r.score⟩)
      | none => results ++ batch.map (fun _ => ⟨"ERROR", 0⟩))
    []

/-- The per-record sentiment analysis sub-dictionary
`article_copy["sentiment_analysis"]`: per-field results in insertion order,
and the optional `"overall"` entry (`none` models an absent key). -/
structure SentAnalysis where
  perField : List (String × SentResult)
  overall : Option SentResult
deriving DecidableEq

/-- The per-record overall emotion dictionary: category averages in insertion
order, plus the optional `"dominant_emotion"` / `"dominant_score"` pair. -/
structure EmoOverall where
  scores : EmoScores
  dominant : Option (String × ℚ)
deriving DecidableEq

/-- The per-record emotion analysis sub-dictionary
`article_copy["emotion_analysis"]`. -/
structure EmoAnalysis where
  perField : List (String × EmoScores)
  overall : Option EmoOverall
deriving DecidableEq

/-- A value stored under a key of an article record: an original text field
(or opaque metadata, also a string), or one of the two analysis sub-maps. -/
inductive Value where
  | vstr : String → Value
  | vsmap : SentAnalysis → Value
  | vemap : EmoAnalysis → Value
deriving DecidableEq

/-- An article record: a Python dict from field name to value. -/
abbrev Record := List (String × Value)

/-- `article.get(field, "")` read as text: absent keys (and keys not holding
a string) behave as the empty string. -/
def getText (r : Record) (f : String) : String :=
  match assocGet r f with
  | some (.vstr s) => s
  | _ => ""

/-- Whether `analyze_articles` analyzes field `f` of `article`:
the test `if text and text.strip():`. -/
def analyzable (article : Record) (f : String) : Bool :=
  !(pyBlank (getText article f))

/-- The per-field loop of `analyze_articles` (shared shape of both
analyzers): for each requested field in order, analyze its text when the
Python test `if text and text.strip():` passes and store the result in the
per-field sub-dictionary under the field name. -/
def buildPerField {γ : Type} (analyze : String → γ) (article : Record)
    (fields : List String) : List (String × γ) :=
  fields.foldl
    (fun acc field =>
      let text := getText article field
      if pyBlank text then acc
      else assocSet acc field (analyze text))
    []

/-- The overall-sentiment computation of `SentimentAnalyzer.analyze_articles`
from `sentiments = list(article_copy["sentiment_analysis"].values())`:
absent (`none`) when no field was analyzed, otherwise the most frequent
label (`max(set(labels), key=labels.count)`) and the 4-decimal-rounded mean
of the per-field scores. -/
def sentOverallOf (sentiments : List SentResult) : Option SentResult :=
  match sentiments with
  | [] => none
  | _ =>
    let labels := sentiments.map (fun s => s.label)
    let most_common := (pyMaxKey (fun l => labels.count l) (pyDedup labels)).getD ""
    some ⟨most_common,
      roundTo 4 ((sentiments.map (fun s => s.score)).sum / (sentiments.length : ℚ))⟩

/-- The loop body of `SentimentAnalyzer.analyze_articles` for one article:
copy the record and store the per-field results and the optional overall
result under `"sentiment_analysis"`. -/
def sentAnnotate (c : String → Option SentResult) (fields : List String)
    (article : Record) : Record :=
  let perField := buildPerField (sentiment_analyze_text c) article fields
  assocSet article "sentiment_analysis"
    (.vsmap ⟨perField, sentOverallOf (perField.map (fun p => p.2))⟩)

/-- `SentimentAnalyzer.analyze_articles` (default fields
`["title", "description"]`): one annotated copy per input record, in order. -/
def sentiment_analyze_articles (c : String → Option SentResult)
    (articles : List Record) (fields : List String := ["title", "description"]) :
    List Record :=
  articles.map (sentAnnotate c fields)

/-- The `overall_emotions` dictionary of `EmotionAnalyzer.analyze_articles`:
for each category of `EMOTIONS` in order that at least one analyzed field
scored, the 4-decimal-rounded mean of those scores. -/
def emoOverallScores (perField : List (String × EmoScores)) : EmoScores :=
  EMOTIONS.foldl
    (fun acc emotion =>
      let scores := perField.filterMap (fun fe => assocGet fe.2 emotion)
      if scores.isEmpty then acc
      else acc ++ [(emotion, roundTo 4 (scores.sum / (scores.length : ℚ)))])
    []

/-- The loop body of `EmotionAnalyzer.analyze_articles` for one article.
The `"overall"` entry exists exactly when some field was analyzed; within
it, the dominant pair exists exactly when `overall_emotions` is non-empty
and is `max(overall_emotions.items(), key=...score)`. -/
def emoAnnotate (c : String → Option (List (String × ℚ))) (fields : List String)
    (article : Record) : Record :=
  let perField := buildPerField (emotion_analyze_text c) article fields
  assocSet article "emotion_analysis"
    (.vemap ⟨perField,
      if perField.isEmpty then none
      else some ⟨emoOverallScores perField,
        pyMaxKey (fun p => p.2) (emoOverallScores perField)⟩⟩)

/-- `EmotionAnalyzer.analyze_articles` (default fields
`["title", "description"]`). -/
def emotion_analyze_articles (c : String → Option (List (String × ℚ)))
    (articles : List Record) (fields : List String := ["title", "description"]) :
    List Record :=
  articles.map (emoAnnotate c fields)

/-- `article.get("sentiment_analysis", {}).get("overall")` in
`get_sentiment_statistics`. -/
def getSentOverall (r : Record) : Option SentResult :=
  match assocGet r "sentiment_analysis" with
  | some (.vsmap a) => a.overall
  | _ => none

/-- The dictionary returned by `get_sentiment_statistics` when it is
non-empty (the function itself returns `none` for the empty dictionary). -/
structure SentStats where
  total_analyzed : ℕ
  positive : ℕ
  negative : ℕ
  neutral : ℤ
  positive_percent : ℚ
  negative_percent : ℚ
  neutral_percent : ℚ
  average_confidence : ℚ
deriving DecidableEq

/-- The statistics computation of `get_sentiment_statistics` applied to the
collected list of overall results (the part after `sentiments` is built):
returns `none` exactly when that list is empty. -/
def sentStatsOfOveralls : List SentResult → Option SentStats
  | [] => none
  | sentiments@(_ :: _) =>
    let total := sentiments.length
    let positive := (sentiments.filter (fun s => s.label = "POSITIVE")).length
    let negative := (sentiments.filter (fun s => s.label = "NEGATIVE")).length
    some
      { total_analyzed := total
        positive := positive
        negative := negative
        neutral := (total : ℤ) - (positive : ℤ) - (negative : ℤ)
        positive_percent := roundTo 2 ((positive : ℚ) / (total : ℚ) * 100)
        negative_percent := roundTo 2 ((negative : ℚ) / (total : ℚ) * 100)
        neutral_percent :=
          roundTo 2 ((((total : ℤ) - (positive : ℤ) - (negative : ℤ) : ℤ) : ℚ) / (total : ℚ) * 100)
        average_confidence :=
          roundTo 4 ((sentiments.map (fun s => s.score)).sum / (total : ℚ)) }

/-- `SentimentAnalyzer.get_sentiment_statistics`: `none` models the empty
dictionary returned both for an empty input list and when no record carries
an overall result. -/
def get_sentiment_statistics (arts : List Record) : Option SentStats :=
  if arts.isEmpty then none
  else
    let sentiments := arts.foldl
      (fun acc a =>
        match getSentOverall a with
        | some o => acc ++ [o]
        | none => acc)
      []
    sentStatsOfOveralls sentiments

/-- `article.get("emotion_analysis", {}).get("overall", {})` in
`get_emotion_statistics` (`none` also covers a missing or non-dict key). -/
def getEmoOverall (r : Record) : Option EmoOverall :=
  match assocGet r "emotion_analysis" with
  | some (.vemap a) => a.overall
  | _ => none

/-- Truthiness of the overall emotion dictionary (`if overall:`): the Python
dict is non-empty iff it has a category entry or the dominant pair. -/
def EmoOverall.isTruthy (o : EmoOverall) : Bool :=
  !(o.scores.isEmpty && o.dominant.isNone)

/-- The overall emotion results `get_emotion_statistics` actually folds over:
present and truthy ones only. -/
def getTruthyEmoOverall (r : Record) : Option EmoOverall :=
  match getEmoOverall r with
  | some o => if o.isTruthy then some o else none
  | none => none

/-- One iteration of the collection loop of `get_emotion_statistics`:
append each category score present in the (truthy) overall dictionary to
that category's accumulator list, and append the dominant emotion if present. -/
def collectEmoStep (acc : (String → List ℚ) × List String) (r : Record) :
    (String → List ℚ) × List String :=
  match getEmoOverall r with
  | some o =>
    if o.isTruthy then
      let totals := EMOTIONS.foldl
        (fun tot emotion =>
          match assocGet o.scores emotion with
          | some s => fun e => if e = emotion then tot e ++ [s] else tot e
          | none => tot)
        acc.1
      let doms :=
        match o.dominant with
        | some d => acc.2 ++ [d.1]
        | none => acc.2
      (totals, doms)
    else acc
  | none => acc

/-- The collection loop of `get_emotion_statistics`: `emotion_totals`
(keyed by category) and `dominant_emotions`. -/
def collectEmo (arts : List Record) : (String → List ℚ) × List String :=
  arts.foldl collectEmoStep (fun _ => [], [])

/-- Stable descending insertion by count, modelling
`sorted(dominant_counts.items(), key=lambda x: x[1], reverse=True)`
(Python's sort is stable; on equal counts the earlier pair stays first). -/
def insertDesc (x : String × ℕ) : List (String × ℕ) → List (String × ℕ)
  | [] => [x]
  | y :: ys => if y.2 ≤ x.2 then x :: y :: ys else y :: insertDesc x ys

/-- Stable descending sort by count. -/
def sortDescByCount (l : List (String × ℕ)) : List (String × ℕ) :=
  l.foldr insertDesc []

/-- The dictionary returned by `get_emotion_statistics` when the input list
is non-empty. -/
structure EmoStats where
  total_analyzed : ℕ
  average_emotions : List (String × ℚ)
  dominant_emotion_counts : List (String × ℕ)
  most_common_emotion : Option String
  emotion_distribution : List (String × ℚ)
deriving DecidableEq

/-- The statistics computation of `get_emotion_statistics` from the record
count, the per-category collected scores, and the list of dominant
emotions. -/
def emoStatsFrom (n : ℕ) (totals : String → List ℚ) (doms : List String) :
    EmoStats :=
  let averages := EMOTIONS.map
    (fun e =>
      let scores := totals e
      (e, if scores.isEmpty then 0 else roundTo 4 (scores.sum / (scores.length : ℚ))))
  let counts := (pyDedup doms).map (fun e => (e, doms.count e))
  let sorted := sortDescByCount counts
  { total_analyzed := n
    average_emotions := averages
    dominant_emotion_counts := sorted
    most_common_emotion := sorted.head?.map (fun p => p.1)
    emotion_distribution :=
      if doms.isEmpty then []
      else counts.map (fun p => (p.1, roundTo 2 ((p.2 : ℚ) / (doms.length : ℚ) * 100))) }

/-- `EmotionAnalyzer.get_emotion_statistics`: `none` models the empty
dictionary returned for an empty input list; note that `total_analyzed` is
`len(analyzed_articles)`, the full record count. -/
def get_emotion_statistics (arts : List Record) : Option EmoStats :=
  if arts.isEmpty then none
  else
    let collected := collectEmo arts
    some (emoStatsFrom arts.length collected.1 collected.2)

/-- The per-category score lists of `get_emotion_statistics`, characterized
directly from the (truthy) overall results in input order. -/
def specEmoTotals (ovs : List EmoOverall) : String → List ℚ :=
  fun e =>
    if e ∈ EMOTIONS then ovs.filterMap (fun o => assocGet o.scores e) else []

/-- The dominant-emotion list of `get_emotion_statistics`, characterized
directly from the (truthy) overall results in input order. -/
def specEmoDoms (ovs : List EmoOverall) : List String :=
  ovs.filterMap (fun o => o.dominant.map (fun d => d.1))

/-- The property C2 asserts of one annotated record: the record carries a
sentiment analysis sub-map with a non-empty per-field dictionary and an
overall result whose score is the 4-decimal-rounded arithmetic mean of the
per-field scores and whose label is a most frequent per-field label (any
tie is broken by the unspecified iteration order of the Python label set,
so only maximality of the occurrence count is asserted). -/
def SentOverallSpec (c : String → Option SentResult) (fields : List String)
    (article : Record) : Prop :=
  ∃ a r,
    assocGet (sentAnnotate c fields article) "sentiment_analysis" = some (.vsmap a)
    ∧ a.overall = some r
    ∧ a.perField ≠ []
    ∧ r.score = roundTo 4 ((a.perField.map (fun p => p.2.score)).sum / (a.perField.length : ℚ))
    ∧ r.label ∈ a.perField.map (fun p => p.2.label)
    ∧ ∀ l ∈ a.perField.map (fun p => p.2.label),
        (a.perField.map (fun p => p.2.label)).count l ≤
          (a.perField.map (fun p => p.2.label)).count r.label

/-- The per-category score lists a record's emotion per-field results give
rise to: for category `e`, the scores of the analyzed fields whose
dictionary contains `e`. -/
def catScores (perField : List (String × EmoScores)) (e : String) : List ℚ :=
  perField.filterMap (fun fe => assocGet fe.2 e)

/-- The unrounded per-category means of a record's emotion results, in
category enumeration order, for the categories with at least one score. -/
def catMeans (perField : List (String × EmoScores)) : List ℚ :=
  EMOTIONS.filterMap (fun e =>
    if (catScores perField e).isEmpty then none
    else some ((catScores perField e).sum / ((catScores perField e).length : ℚ)))

/-- The property C3 asserts of one annotated record: the record carries an
emotion analysis sub-map with a non-empty per-field dictionary and an
overall dictionary that holds, for each of the 7 categories in enumeration
order that at least one analyzed field scored, the 4-decimal-rounded mean
of those scores (fields without the category are excluded, not counted as
zero); the dominant pair, when the dictionary is non-empty, is its first
entry of maximal score, and its score is the rounded maximal mean. -/
def EmoOverallSpec (c : String → Option (List (String × ℚ))) (fields : List String)
    (article : Record) : Prop :=
  ∃ a,
    assocGet (emoAnnotate c fields article) "emotion_analysis" = some (.vemap a)
    ∧ a.perField ≠ []
    ∧ ∃ ov, a.overall = some ov
      ∧ ov.scores = EMOTIONS.filterMap (fun e =>
          if (catScores a.perField e).isEmpty then none
          else some (e, roundTo 4
            ((catScores a.perField e).sum / ((catScores a.perField e).length : ℚ))))
      ∧ ((ov.scores = [] ∧ ov.dominant = none)
          ∨ ∃ d, ov.dominant = some d ∧ IsFirstMaxKey (fun p => p.2) ov.scores d)
      ∧ ∀ d, ov.dominant = some d →
          ∃ m ∈ catMeans a.perField,
            d.2 = roundTo 4 m ∧ ∀ m₀ ∈ catMeans a.perField, m₀ ≤ m

/-- The property C4 asserts of the sentiment corpus statistics (when they
are non-empty): the counts are the label counts over the records with an
overall result, `neutral` is `total - positive - negative` and therefore
counts every overall label other than POSITIVE and NEGATIVE (NEUTRAL and
ERROR folded together), the percentages are 2-decimal-rounded, the mean
confidence is 4-decimal-rounded, and an all-POSITIVE corpus yields
`positive_percent = 100` with zero negative/neutral counts and
percentages. -/
def SentStatsSpec (arts : List Record) (s : SentStats) : Prop :=
  s.total_analyzed = (arts.filterMap getSentOverall).length
  ∧ s.positive =
      ((arts.filterMap getSentOverall).filter (fun o => o.label = "POSITIVE")).length
  ∧ s.negative =
      ((arts.filterMap getSentOverall).filter (fun o => o.label = "NEGATIVE")).length
  ∧ s.neutral = (s.total_analyzed : ℤ) - (s.positive : ℤ) - (s.negative : ℤ)
  ∧ s.neutral = (((arts.filterMap getSentOverall).filter
      (fun o => ¬(o.label = "POSITIVE") ∧ ¬(o.label = "NEGATIVE"))).length : ℤ)
  ∧ s.positive_percent = roundTo 2 ((s.positive : ℚ) / (s.total_analyzed : ℚ) * 100)
  ∧ s.negative_percent = roundTo 2 ((s.negative : ℚ) / (s.total_analyzed : ℚ) * 100)
  ∧ s.neutral_percent = roundTo 2 ((s.neutral : ℚ) / (s.total_analyzed : ℚ) * 100)
  ∧ s.average_confidence = roundTo 4
      (((arts.filterMap getSentOverall).map (fun o => o.score)).sum / (s.total_analyzed : ℚ))
  ∧ ((∀ o ∈ arts.filterMap getSentOverall, o.label = "POSITIVE") →
      s.positive_percent = 100 ∧ s.negative = 0 ∧ s.neutral = 0
      ∧ s.negative_percent = 0 ∧ s.neutral_percent = 0)

/-- The property C1 (amended) asserts of the two corpus statistics
functions: the sentiment statistics are a function of the overall results
of the records that have one (records without an overall result are skipped
entirely), and its total is the count of records WITH an overall result;
the emotion statistics are a function of the truthy overall emotion results
and of the plain record count, because - unlike the claim as stated - the
emotion `total_analyzed` is `len(analyzed_articles)`, counting every
record, with or without an overall result.  All other emotion fields
(averages, dominant counts, percentages) depend only on the non-skipped
records. -/
def StatsSkipSpec (arts : List Record) : Prop :=
  get_sentiment_statistics arts = sentStatsOfOveralls (arts.filterMap getSentOverall)
  ∧ (∀ s, get_sentiment_statistics arts = some s →
      s.total_analyzed = (arts.filterMap getSentOverall).length)
  ∧ (arts ≠ [] →
      get_emotion_statistics arts =
        some (emoStatsFrom arts.length
          (specEmoTotals (arts.filterMap getTruthyEmoOverall))
          (specEmoDoms (arts.filterMap getTruthyEmoOverall))))
  ∧ (∀ es, get_emotion_statistics arts = some es → es.total_analyzed = arts.length)

theorem assocGet_assocSet_self {α : Type} (l : List (String × α)) (k : String) (v : α) :
    assocGet (assocSet l k v) k = some v := by
  induction l with
  | nil => simp [assocSet, assocGet]
  | cons p rest ih =>
    by_cases h : p.1 = k
    · simp [assocSet, assocGet, h]
    · simp [assocSet, assocGet, h, ih]

theorem assocGet_assocSet_ne {α : Type} (l : List (String × α)) (k k₀ : String) (v : α)
    (h : k₀ ≠ k) : assocGet (assocSet l k v) k₀ = assocGet l k₀ := by
  induction l with
  | nil => simp [assocSet, assocGet, Ne.symm h]
  | cons p rest ih =>
    by_cases hp : p.1 = k
    · subst hp
      simp [assocSet, assocGet, Ne.symm h]
    · simp only [assocSet, if_neg hp]
      by_cases hp₀ : p.1 = k₀
      · simp [assocGet, hp₀]
      · simp [assocGet, hp₀, ih]

theorem assocSet_ne_nil {α : Type} (l : List (String × α)) (k : String) (v : α) :
    assocSet l k v ≠ [] := by
  cases l with
  | nil => simp [assocSet]
  | cons p rest =>
    by_cases h : p.1 = k <;> simp [assocSet, h]

theorem pyDedup_mem_aux (l : List String) :
    ∀ (acc : List String) (x : String),
      (x ∈ l.foldl (fun acc x => if x ∈ acc then acc else acc ++ [x]) acc) ↔
        (x ∈ acc ∨ x ∈ l) := by
  induction l with
  | nil => simp
  | cons a rest ih =>
    intro acc x
    by_cases h : a ∈ acc
    · simp only [List.foldl_cons, if_pos h, ih, List.mem_cons]
      constructor
      · rintro (hx | hx)
        · exact Or.inl hx
        · exact Or.inr (Or.inr hx)
      · rintro (hx | rfl | hx)
        · exact Or.inl hx
        · exact Or.inl h
        · exact Or.inr hx
    · simp only [List.foldl_cons, if_neg h, ih, List.mem_append, List.mem_singleton,
        List.mem_cons]
      tauto

theorem pyDedup_mem (l : List String) (x : String) : x ∈ pyDedup l ↔ x ∈ l := by
  rw [pyDedup, pyDedup_mem_aux]
  simp

theorem pyDedup_ne_nil (l : List String) (h : l ≠ []) : pyDedup l ≠ [] := by
  obtain ⟨a, rest, rfl⟩ := List.exists_cons_of_ne_nil h
  exact List.ne_nil_of_mem ((pyDedup_mem _ a).mpr (List.mem_cons_self a rest))

theorem pyMaxKey_foldl_isFirstMax {α β : Type} [LinearOrder β] (key : α → β) :
    ∀ (xs : List α) (x : α),
      IsFirstMaxKey key (x :: xs)
        (xs.foldl (fun best y => if key best < key y then y else best) x) := by
  intro xs
  induction xs with
  | nil =>
    intro x
    exact ⟨[], [], rfl, by simp, by simp⟩
  | cons y ys ih =>
    intro x
    simp only [List.foldl_cons]
    by_cases h : key x < key y
    · rw [if_pos h]
      obtain ⟨l₁, l₂, heq, h₁, h₂⟩ := ih y
      refine ⟨x :: l₁, l₂, by rw [List.cons_append, ← heq], ?_, h₂⟩
      intro z hz
      rcases List.mem_cons.mp hz with rfl | hz
      · cases l₁ with
        | nil =>
          rw [List.nil_append] at heq
          injection heq with hy hl
          rw [← hy]
          exact h
        | cons a as =>
          rw [List.cons_append] at heq
          injection heq with hy hl
          have hyr := h₁ a (List.mem_cons_self a as)
          rw [← hy] at hyr
          exact h.trans hyr
      · exact h₁ z hz
    · rw [if_neg h]
      obtain ⟨l₁, l₂, heq, h₁, h₂⟩ := ih x
      cases l₁ with
      | nil =>
        rw [List.nil_append] at heq
        injection heq with hx hl
        refine ⟨[], y :: ys, by rw [List.nil_append, ← hx], by simp, ?_⟩
        intro z hz
        rcases List.mem_cons.mp hz with rfl | hz
        · rw [← hx]
          exact le_of_not_lt h
        · rw [hl] at hz
          exact h₂ z hz
      | cons a as =>
        rw [List.cons_append] at heq
        injection heq with hx hl
        refine ⟨x :: y :: as, l₂, by rw [List.cons_append, List.cons_append, ← hl, hx], ?_, h₂⟩
        intro z hz
        have hxr := h₁ a (List.mem_cons_self a as)
        rw [← hx] at hxr
        rcases List.mem_cons.mp hz with rfl | hz
        · exact hxr
        · rcases List.mem_cons.mp hz with rfl | hz
          · exact lt_of_le_of_lt (le_of_not_lt h) hxr
          · exact h₁ z (List.mem_cons_of_mem a hz)

theorem pyMaxKey_isFirstMax {α β : Type} [LinearOrder β] (key : α → β)
    (l : List α) (d : α) (h : pyMaxKey key l = some d) : IsFirstMaxKey key l d := by
  cases l with
  | nil => simp [pyMaxKey] at h
  | cons x xs =>
    simp only [pyMaxKey, Option.some.injEq] at h
    subst h
    exact pyMaxKey_foldl_isFirstMax key xs x

theorem IsFirstMaxKey.mem {α β : Type} [LinearOrder β] {key : α → β} {l : List α}
    {d : α} (h : IsFirstMaxKey key l d) : d ∈ l := by
  obtain ⟨l₁, l₂, rfl, -, -⟩ := h
  simp

theorem IsFirstMaxKey.key_le {α β : Type} [LinearOrder β] {key : α → β} {l : List α}
    {d : α} (h : IsFirstMaxKey key l d) : ∀ y ∈ l, key y ≤ key d := by
  obtain ⟨l₁, l₂, rfl, h₁, h₂⟩ := h
  intro y hy
  rcases List.mem_append.mp hy with hy | hy
  · exact le_of_lt (h₁ y hy)
  · rcases List.mem_cons.mp hy with rfl | hy
    · exact le_refl _
    · exact h₂ y hy

theorem foldl_opt_append {α β : Type} (f : List β → α → List β) (g : α → Option β)
    (hf : ∀ acc a, f acc a = acc ++ (g a).toList) :
    ∀ (l : List α) (acc : List β), l.foldl f acc = acc ++ l.filterMap g := by
  intro l
  induction l with
  | nil => simp
  | cons a rest ih =>
    intro acc
    rw [List.foldl_cons, hf, ih]
    cases hga : g a with
    | some b => simp [hga, List.filterMap_cons]
    | none => simp [hga, List.filterMap_cons]

theorem foldl_skip_append {α β : Type} (p : α → Bool) (g : α → β) :
    ∀ (l : List α) (acc : List β),
      l.foldl (fun acc a => if p a then acc else acc ++ [g a]) acc =
        acc ++ l.filterMap (fun a => if p a then none else some (g a)) := by
  intro l
  induction l with
  | nil => simp
  | cons a rest ih =>
    intro acc
    by_cases hp : p a <;> simp [hp, ih, List.filterMap_cons]

theorem foldl_skip_preserve_ne_nil {γ : Type} (p : String → Bool)
    (g : List γ → String → List γ) (hg : ∀ acc f, g acc f ≠ []) :
    ∀ (fields : List String) (acc : List γ), acc ≠ [] →
      fields.foldl (fun acc f => if p f then acc else g acc f) acc ≠ [] := by
  intro fields
  induction fields with
  | nil => intro acc h; simpa
  | cons f rest ih =>
    intro acc h
    by_cases hp : p f
    · simpa [hp] using ih acc h
    · simpa [hp] using ih (g acc f) (hg acc f)

theorem foldl_skip_ne_nil {γ : Type} (p : String → Bool)
    (g : List γ → String → List γ) (hg : ∀ acc f, g acc f ≠ []) :
    ∀ (fields : List String) (acc : List γ), (∃ f ∈ fields, p f = false) →
      fields.foldl (fun acc f => if p f then acc else g acc f) acc ≠ [] := by
  intro fields
  induction fields with
  | nil => rintro acc ⟨f, hf, -⟩; simp at hf
  | cons f rest ih =>
    rintro acc ⟨f₀, hf₀, hpf₀⟩
    by_cases hp : p f
    · rcases List.mem_cons.mp hf₀ with rfl | hf₀
      · rw [hp] at hpf₀; cases hpf₀
      · simpa [hp] using ih acc ⟨f₀, hf₀, hpf₀⟩
    · simpa [hp] using foldl_skip_preserve_ne_nil p g hg rest (g acc f) (hg acc f)

theorem foldl_skip_nil_of_all {γ : Type} (p : String → Bool)
    (g : List γ → String → List γ) :
    ∀ (fields : List String) (acc : List γ), (∀ f ∈ fields, p f = true) →
      fields.foldl (fun acc f => if p f then acc else g acc f) acc = acc := by
  intro fields
  induction fields with
  | nil => simp
  | cons f rest ih =>
    intro acc h
    have hf : p f = true := h f (List.mem_cons_self f rest)
    simpa [hf] using ih acc (fun f₀ hf₀ => h f₀ (List.mem_cons_of_mem f hf₀))

theorem toChunksAux_flatten {α : Type} (bs : ℕ) (hbs : 0 < bs) :
    ∀ (fuel : ℕ) (l : List α), l.length ≤ fuel →
      (toChunksAux bs fuel l).flatten = l := by
  intro fuel
  induction fuel with
  | zero =>
    intro l hl
    rw [List.length_eq_zero.mp (Nat.le_zero.mp hl)]
    rfl
  | succ fuel ih =>
    intro l hl
    cases l with
    | nil => rfl
    | cons x xs =>
      rw [toChunksAux, List.flatten_cons, ih ((x :: xs).drop bs) ?_,
        List.take_append_drop]
      simp only [List.length_drop, List.length_cons] at hl ⊢
      omega

theorem toChunks_flatten {α : Type} (bs : ℕ) (hbs : 0 < bs) (l : List α) :
    (toChunks bs l).flatten = l := by
  rw [toChunks, if_neg (Nat.pos_iff_ne_zero.mp hbs)]
  exact toChunksAux_flatten bs hbs l.length l (le_refl _)

theorem analyze_batch_foldl {cB : List String → Option (List SentResult)} :
    ∀ (chunks : List (List String)) (acc : List SentResult),
      chunks.foldl
        (fun results batch =>
          match cB (batch.map cleanText) with
          | some rs => results ++ rs.map (fun r => ⟨r.label, roundTo 4 r.score⟩)
          | none => results ++ batch.map (fun _ => ⟨"ERROR", 0⟩))
        acc =
      acc ++ chunks.flatMap (fun b =>
        match cB (b.map cleanText) with
        | some rs => rs.map (fun r => (⟨r.label, roundTo 4 r.score⟩ : SentResult))
        | none => b.map (fun _ => ⟨"ERROR", 0⟩)) := by
  intro chunks
  induction chunks with
  | nil => simp
  | cons b rest ih =>
    intro acc
    cases hb : cB (b.map cleanText) with
    | some rs =>
      simp only [List.foldl_cons, List.flatMap_cons, hb]
      rw [ih, List.append_assoc]
    | none =>
      simp only [List.foldl_cons, List.flatMap_cons, hb]
      rw [ih, List.append_assoc]

theorem buildPerField_nil_of_all {γ : Type} (analyze : String → γ) (article : Record)
    (fields : List String) (h : ∀ f ∈ fields, pyBlank (getText article f) = true) :
    buildPerField analyze article fields = [] :=
  foldl_skip_nil_of_all (fun f => pyBlank (getText article f))
    (fun acc f => assocSet acc f (analyze (getText article f))) fields [] h

theorem buildPerField_ne_nil {γ : Type} (analyze : String → γ) (article : Record)
    (fields : List String) (h : ∃ f ∈ fields, pyBlank (getText article f) = false) :
    buildPerField analyze article fields ≠ [] :=
  foldl_skip_ne_nil (fun f => pyBlank (getText article f))
    (fun acc f => assocSet acc f (analyze (getText article f)))
    (fun acc f => assocSet_ne_nil acc f (analyze (getText article f))) fields [] h

/-- C9: for the empty input sequence of records, both corpus statistics
functions return the empty object (modelled by `none`), not a zero-valued
statistics object. -/
theorem claim9_empty_input_empty_stats :
    get_sentiment_statistics [] = none ∧ get_emotion_statistics [] = none := by
  constructor <;> rfl

/-- C5: a text that is empty or whitespace-only (the Python test
`not text or not text.strip()`, which also covers an absent field read back
as `""`) makes `analyze_text` of both analyzers return the deterministic
placeholder, with zero classifier invocations, whatever the classifier. -/
theorem claim5_blank_placeholder (t : String) (h : pyBlank t = true) :
    (∀ c : String → Option SentResult,
        sentiment_analyze_textC c t = (⟨"NEUTRAL", 0⟩, 0))
  ∧ (∀ c : String → Option (List (String × ℚ)),
        emotion_analyze_textC c t = (emotionZero, 0)) := by
  constructor <;> intro c
  · rw [sentiment_analyze_textC, if_pos h]
  · rw [emotion_analyze_textC, if_pos h]

theorem claim5_blank_placeholder_witness :
    pyBlank "   " = true
  ∧ sentiment_analyze_textC (fun _ => some ⟨"POSITIVE", 1⟩) "   " = (⟨"NEUTRAL", 0⟩, 0)
  ∧ emotion_analyze_textC (fun _ => none) "   " = (emotionZero, 0) :=
  ⟨by decide,
   (claim5_blank_placeholder "   " (by decide)).1 _,
   (claim5_blank_placeholder "   " (by decide)).2 _⟩

theorem flatMap_length_chunks {α β : Type} (g : List α → List β) :
    ∀ (chunks : List (List α)), (∀ b ∈ chunks, (g b).length = b.length) →
      (chunks.flatMap g).length = chunks.flatten.length := by
  intro chunks
  induction chunks with
  | nil => simp
  | cons b rest ih =>
    intro h
    simp only [List.flatMap_cons, List.flatten_cons, List.length_append,
      h b (List.mem_cons_self b rest), ih (fun b₀ hb₀ => h b₀ (List.mem_cons_of_mem b hb₀))]

end GNS

namespace GNS

/-- C7: a record in which no requested field has non-empty text gets an
analysis sub-map with no per-field entry and, in particular, no `"overall"`
entry (absent, i.e. `none`, rather than a default value), for both
analyzers. -/
theorem claim7_no_overall_without_fields (cS : String → Option SentResult)
    (cE : String → Option (List (String × ℚ))) (fields : List String)
    (article : Record) (h : ∀ f ∈ fields, analyzable article f = false) :
    assocGet (sentAnnotate cS fields article) "sentiment_analysis" =
      some (.vsmap ⟨[], none⟩)
  ∧ assocGet (emoAnnotate cE fields article) "emotion_analysis" =
      some (.vemap ⟨[], none⟩) := by
  have h' : ∀ f ∈ fields, pyBlank (getText article f) = true := by
    intro f hf
    have hb := h f hf
    rw [analyzable] at hb
    simpa using hb
  have h1 := buildPerField_nil_of_all (sentiment_analyze_text cS) article fields h'
  have h2 := buildPerField_nil_of_all (emotion_analyze_text cE) article fields h'
  constructor
  · simp only [sentAnnotate, h1, List.map_nil, sentOverallOf]
    exact assocGet_assocSet_self article _ _
  · simp only [emoAnnotate, h2, List.isEmpty_nil, if_pos]
    exact assocGet_assocSet_self article _ _

theorem claim7_no_overall_without_fields_witness :
    (∀ f ∈ ["title", "description"],
        analyzable [("title", Value.vstr "   ")] f = false)
  ∧ assocGet (sentAnnotate (fun _ => none) ["title", "description"]
      [("title", Value.vstr "   ")]) "sentiment_analysis" = some (.vsmap ⟨[], none⟩)
  ∧ assocGet (emoAnnotate (fun _ => none) ["title", "description"]
      [("title", Value.vstr "   ")]) "emotion_analysis" = some (.vemap ⟨[], none⟩) :=
  ⟨by decide,
   (claim7_no_overall_without_fields (fun _ => none) (fun _ => none) _ _ (by decide)).1,
   (claim7_no_overall_without_fields (fun _ => none) (fun _ => none) _ _ (by decide)).2⟩

/-- C6: a classifier failure (modelled by `none`) on a non-blank text makes
`analyze_text` return the ERROR sentinel (sentiment) or the zero placeholder
(emotion); `analyze_batch` equals the independent concatenation of its
chunk results, so a whole-chunk failure yields one ERROR sentinel per text
of that chunk while all other chunks are still processed, and (for a
length-preserving classifier) the batch always returns one result per input
text - it is never aborted. -/
theorem claim6_failure_sentinels :
    (∀ (c : String → Option SentResult) (t : String),
        pyBlank t = false → c (t.take 512) = none →
        sentiment_analyze_text c t = ⟨"ERROR", 0⟩)
  ∧ (∀ (c : String → Option (List (String × ℚ))) (t : String),
        pyBlank t = false → c (t.take 512) = none →
        emotion_analyze_text c t = emotionZero)
  ∧ (∀ (cB : List String → Option (List SentResult)) (texts : List String) (bs : ℕ),
        analyze_batch cB texts bs =
          (toChunks bs texts).flatMap (fun b =>
            match cB (b.map cleanText) with
            | some rs => rs.map (fun r => (⟨r.label, roundTo 4 r.score⟩ : SentResult))
            | none => b.map (fun _ => (⟨"ERROR", 0⟩ : SentResult))))
  ∧ (∀ (cB : List String → Option (List SentResult)) (texts : List String) (bs : ℕ),
        0 < bs → (∀ b rs, cB b = some rs → rs.length = b.length) →
        (analyze_batch cB texts bs).length = texts.length) := by
  refine ⟨?_, ?_, ?_, ?_⟩
  · intro c t h hc
    simp only [sentiment_analyze_text, sentiment_analyze_textC, h, Bool.false_eq_true,
      if_false, hc]
  · intro c t h hc
    simp only [emotion_analyze_text, emotion_analyze_textC, h, Bool.false_eq_true,
      if_false, hc]
  · intro cB texts bs
    exact analyze_batch_foldl (toChunks bs texts) []
  · intro cB texts bs hbs hlen
    have h3 := @analyze_batch_foldl cB (toChunks bs texts) []
    rw [show analyze_batch cB texts bs =
        (toChunks bs texts).flatMap (fun b =>
          match cB (b.map cleanText) with
          | some rs => rs.map (fun r => (⟨r.label, roundTo 4 r.score⟩ : SentResult))
          | none => b.map (fun _ => (⟨"ERROR", 0⟩ : SentResult))) from h3]
    rw [flatMap_length_chunks _ (toChunks bs texts) ?_,
      toChunks_flatten bs hbs texts]
    intro b _
    cases hb : cB (b.map cleanText) with
    | some rs =>
      simp only [hb]
      rw [List.length_map, hlen (b.map cleanText) rs hb, List.length_map]
    | none =>
      simp only [hb]
      rw [List.length_map]

theorem claim6_failure_sentinels_witness :
    pyBlank "war" = false
  ∧ sentiment_analyze_text (fun _ => none) "war" = ⟨"ERROR", 0⟩
  ∧ emotion_analyze_text (fun _ => none) "war" = emotionZero
  ∧ (analyze_batch (fun _ => none) ["aa", "bb", "cc"] 2).length = 3 :=
  ⟨by decide,
   claim6_failure_sentinels.1 (fun _ => none) "war" (by decide) rfl,
   claim6_failure_sentinels.2.1 (fun _ => none) "war" (by decide) rfl,
   claim6_failure_sentinels.2.2.2 (fun _ => none) ["aa", "bb", "cc"] 2 (by decide)
     (fun _ rs h => Option.noConfusion h)⟩

end GNS

namespace GNS

/-- C10: `analyze_articles` returns exactly one record per input record and
in the same order (the i-th output is the annotated copy of the i-th
input), and every output record carries its analysis sub-map key - present
(possibly as an empty sub-map) even when no field was analyzable. -/
theorem claim10_output_shape (cS : String → Option SentResult)
    (cE : String → Option (List (String × ℚ))) (arts : List Record)
    (fields : List String) :
    (sentiment_analyze_articles cS arts fields).length = arts.length
  ∧ (emotion_analyze_articles cE arts fields).length = arts.length
  ∧ (∀ i : ℕ, (sentiment_analyze_articles cS arts fields)[i]? =
      (arts[i]?).map (sentAnnotate cS fields))
  ∧ (∀ i : ℕ, (emotion_analyze_articles cE arts fields)[i]? =
      (arts[i]?).map (emoAnnotate cE fields))
  ∧ (∀ r ∈ sentiment_analyze_articles cS arts fields,
      ∃ a, assocGet r "sentiment_analysis" = some (.vsmap a))
  ∧ (∀ r ∈ emotion_analyze_articles cE arts fields,
      ∃ a, assocGet r "emotion_analysis" = some (.vemap a)) := by
  refine ⟨by simp [sentiment_analyze_articles], by simp [emotion_analyze_articles],
    ?_, ?_, ?_, ?_⟩
  · intro i
    simp [sentiment_analyze_articles, List.getElem?_map]
  · intro i
    simp [emotion_analyze_articles, List.getElem?_map]
  · intro r hr
    obtain ⟨a0, _, rfl⟩ := List.mem_map.mp hr
    exact ⟨_, assocGet_assocSet_self a0 _ _⟩
  · intro r hr
    obtain ⟨a0, _, rfl⟩ := List.mem_map.mp hr
    exact ⟨_, assocGet_assocSet_self a0 _ _⟩

theorem claim10_output_shape_witness :
    (sentiment_analyze_articles (fun _ => none) [[]] ["t"]).length = 1
  ∧ (sentiment_analyze_articles (fun _ => none) [[]] ["t"])[0]? =
      some (sentAnnotate (fun _ => none) ["t"] [])
  ∧ (∃ a, assocGet (sentAnnotate (fun _ => none) ["t"] ([] : Record))
      "sentiment_analysis" = some (.vsmap a)) :=
  ⟨(claim10_output_shape (fun _ => none) (fun _ => none) [[]] ["t"]).1,
   (claim10_output_shape (fun _ => none) (fun _ => none) [[]] ["t"]).2.2.1 0,
   (claim10_output_shape (fun _ => none) (fun _ => none) [[]] ["t"]).2.2.2.2.1
     (sentAnnotate (fun _ => none) ["t"] []) (by simp [sentiment_analyze_articles])⟩

/-- C8 (amended): the analyzers never mutate the input (immediate in this
pure embedding, where the annotated record is a fresh value); every
pre-existing field of the input record OTHER THAN the analysis key itself
is present, unaltered and in place in the output record, and the analysis
key is bound to the new sub-map - so a pre-existing field named
"sentiment_analysis" (resp. "emotion_analysis") is overwritten rather than
preserved, which is the one exception the original claim ignored. -/
theorem claim8_amended_preservation (cS : String → Option SentResult)
    (cE : String → Option (List (String × ℚ))) (fields : List String)
    (article : Record) (key : String) :
    (key ≠ "sentiment_analysis" →
      assocGet (sentAnnotate cS fields article) key = assocGet article key)
  ∧ (key ≠ "emotion_analysis" →
      assocGet (emoAnnotate cE fields article) key = assocGet article key)
  ∧ (∃ a, assocGet (sentAnnotate cS fields article) "sentiment_analysis" =
      some (.vsmap a))
  ∧ (∃ a, assocGet (emoAnnotate cE fields article) "emotion_analysis" =
      some (.vemap a)) :=
  ⟨fun hk => assocGet_assocSet_ne article _ key _ hk,
   fun hk => assocGet_assocSet_ne article _ key _ hk,
   ⟨_, assocGet_assocSet_self article _ _⟩,
   ⟨_, assocGet_assocSet_self article _ _⟩⟩

theorem claim8_amended_preservation_witness :
    ("author" ≠ "sentiment_analysis")
  ∧ assocGet (sentAnnotate (fun _ => none) ["title"] [("author", Value.vstr "x")])
      "author" = assocGet [("author", Value.vstr "x")] "author"
  ∧ assocGet (emoAnnotate (fun _ => none) ["title"] [("author", Value.vstr "x")])
      "author" = assocGet [("author", Value.vstr "x")] "author" :=
  ⟨by decide,
   (claim8_amended_preservation (fun _ => none) (fun _ => none) ["title"]
     [("author", Value.vstr "x")] "author").1 (by decide),
   (claim8_amended_preservation (fun _ => none) (fun _ => none) ["title"]
     [("author", Value.vstr "x")] "author").2.1 (by decide)⟩

/-- C8 counterexample: on an input record that already contains a
"sentiment_analysis" field, the annotated output record does NOT preserve
that pre-existing field - it is overwritten with the new analysis sub-map,
so "every pre-existing field of the input record is present and unaltered
in the corresponding output record" fails as stated. -/
theorem claim8_counterexample :
    assocGet [("sentiment_analysis", Value.vstr "original")] "sentiment_analysis" =
      some (Value.vstr "original")
  ∧ assocGet (sentAnnotate (fun _ => none) ["title", "description"]
      [("sentiment_analysis", Value.vstr "original")]) "sentiment_analysis" =
      some (.vsmap ⟨[], none⟩)
  ∧ some (Value.vsmap ⟨[], none⟩) ≠ some (Value.vstr "original") := by
  refine ⟨rfl, ?_, by decide⟩
  with_unfolding_all decide

end GNS

namespace GNS

theorem sentAnnotate_def (c : String → Option SentResult) (fields : List String)
    (article : Record) :
    sentAnnotate c fields article =
      assocSet article "sentiment_analysis"
        (.vsmap ⟨buildPerField (sentiment_analyze_text c) article fields,
          sentOverallOf ((buildPerField (sentiment_analyze_text c) article fields).map
            (fun p => p.2))⟩) := rfl

theorem emoAnnotate_def (c : String → Option (List (String × ℚ))) (fields : List String)
    (article : Record) :
    emoAnnotate c fields article =
      assocSet article "emotion_analysis"
        (.vemap ⟨buildPerField (emotion_analyze_text c) article fields,
          if (buildPerField (emotion_analyze_text c) article fields).isEmpty then none
          else some ⟨emoOverallScores (buildPerField (emotion_analyze_text c) article fields),
            pyMaxKey (fun p => p.2)
              (emoOverallScores (buildPerField (emotion_analyze_text c) article fields))⟩⟩) := rfl

theorem sentOverallOf_spec (sentiments : List SentResult) (h : sentiments ≠ []) :
    ∃ r, sentOverallOf sentiments = some r
      ∧ r.score = roundTo 4 ((sentiments.map (fun s => s.score)).sum / (sentiments.length : ℚ))
      ∧ r.label ∈ sentiments.map (fun s => s.label)
      ∧ ∀ l ∈ sentiments.map (fun s => s.label),
          (sentiments.map (fun s => s.label)).count l ≤
            (sentiments.map (fun s => s.label)).count r.label := by
  obtain ⟨q0, qs, rfl⟩ := List.exists_cons_of_ne_nil h
  have hlne : (q0 :: qs).map (fun s => s.label) ≠ [] := by simp
  have hdne := pyDedup_ne_nil _ hlne
  obtain ⟨d0, ds, hd⟩ := List.exists_cons_of_ne_nil hdne
  cases hmk : pyMaxKey (fun l => (((q0 :: qs).map (fun s => s.label)).count l))
      (pyDedup ((q0 :: qs).map (fun s => s.label))) with
  | none =>
    rw [hd, pyMaxKey] at hmk
    cases hmk
  | some m =>
    have hfm := pyMaxKey_isFirstMax _ _ _ hmk
    have hmemL := (pyDedup_mem _ m).mp hfm.mem
    simp only [List.map_cons] at hmk
    refine ⟨_, rfl, rfl, ?_, ?_⟩
    · simpa [hmk] using hmemL
    · intro l hl
      have hle := hfm.key_le l ((pyDedup_mem _ l).mpr hl)
      simpa [hmk] using hle

end GNS

namespace GNS

/-- C2: for every record with at least one analyzed field, the sentiment
overall result exists, its score is the 4-decimal-rounded arithmetic mean
of the per-field scores, and its label attains the maximal occurrence count
among the per-field labels (the code picks `max(set(labels),
key=labels.count)`, whose tie-break is the unspecified set iteration
order). -/
theorem claim2_overall_sentiment (c : String → Option SentResult)
    (fields : List String) (article : Record)
    (h : ∃ f ∈ fields, analyzable article f = true) :
    SentOverallSpec c fields article := by
  have h' : ∃ f ∈ fields, pyBlank (getText article f) = false := by
    obtain ⟨f, hf, hb⟩ := h
    refine ⟨f, hf, ?_⟩
    rw [analyzable] at hb
    simpa using hb
  have hne := buildPerField_ne_nil (sentiment_analyze_text c) article fields h'
  have hmapne :
      (buildPerField (sentiment_analyze_text c) article fields).map (fun p => p.2) ≠ [] := by
    simpa using hne
  obtain ⟨r, hov, hs, hm, hcnt⟩ := sentOverallOf_spec _ hmapne
  refine ⟨⟨buildPerField (sentiment_analyze_text c) article fields,
    sentOverallOf ((buildPerField (sentiment_analyze_text c) article fields).map (fun p => p.2))⟩,
    r, by rw [sentAnnotate_def]; exact assocGet_assocSet_self article _ _, hov, hne, ?_, ?_, ?_⟩
  · simpa [List.map_map, Function.comp] using hs
  · simpa [List.map_map, Function.comp] using hm
  · intro l hl
    simp only [List.map_map, Function.comp] at hcnt
    simpa [List.map_map, Function.comp] using
      hcnt l (by simpa [List.map_map, Function.comp] using hl)

theorem claim2_overall_sentiment_witness :
    (∃ f ∈ ["title", "description"],
        analyzable [("title", Value.vstr "Great news")] f = true)
  ∧ SentOverallSpec (fun _ => some ⟨"POSITIVE", 1⟩) ["title", "description"]
      [("title", Value.vstr "Great news")] :=
  ⟨by decide,
   claim2_overall_sentiment (fun _ => some ⟨"POSITIVE", 1⟩) ["title", "description"]
     [("title", Value.vstr "Great news")] (by decide)⟩

end GNS

namespace GNS

theorem roundTo_mono (n : ℕ) {a b : ℚ} (h : a ≤ b) : roundTo n a ≤ roundTo n b := by
  rw [roundTo, roundTo]
  have h10 : (0 : ℚ) < 10 ^ n := by positivity
  refine (div_le_div_iff_of_pos_right h10).mpr ?_
  have hfl : pyRound (a * 10 ^ n) ≤ pyRound (b * 10 ^ n) := by
    rw [pyRound, pyRound]
    exact Int.floor_le_floor
      (add_le_add_right (mul_le_mul_of_nonneg_right h (le_of_lt h10)) _)
  exact_mod_cast hfl

theorem exists_max_mem {l : List ℚ} (h : l ≠ []) : ∃ m ∈ l, ∀ x ∈ l, x ≤ m := by
  induction l with
  | nil => cases h rfl
  | cons a as ih =>
    cases as with
    | nil => exact ⟨a, by simp, by simp⟩
    | cons b bs =>
      obtain ⟨m, hm, hmax⟩ := ih (by simp)
      by_cases hab : a ≤ m
      · refine ⟨m, List.mem_cons_of_mem a hm, ?_⟩
        intro x hx
        rcases List.mem_cons.mp hx with rfl | hx
        · exact hab
        · exact hmax x hx
      · refine ⟨a, List.mem_cons_self a _, ?_⟩
        intro x hx
        rcases List.mem_cons.mp hx with rfl | hx
        · exact le_refl x
        · exact (hmax x hx).trans (le_of_not_le hab)

theorem emoOverallScores_eq (perField : List (String × EmoScores)) :
    emoOverallScores perField = EMOTIONS.filterMap (fun e =>
      if (catScores perField e).isEmpty then none
      else some (e, roundTo 4
        ((catScores perField e).sum / ((catScores perField e).length : ℚ)))) :=
  foldl_skip_append (fun e => (catScores perField e).isEmpty)
    (fun e => (e, roundTo 4
      ((catScores perField e).sum / ((catScores perField e).length : ℚ))))
    EMOTIONS []

theorem emoScores_snd_means (perField : List (String × EmoScores)) :
    (emoOverallScores perField).map (fun p => p.2) = (catMeans perField).map (roundTo 4) := by
  rw [emoOverallScores_eq, catMeans, List.map_filterMap, List.map_filterMap]
  have hfe : (fun e => Option.map (fun p => (p.2 : ℚ))
        (if (catScores perField e).isEmpty then none
         else some (e, roundTo 4
           ((catScores perField e).sum / ((catScores perField e).length : ℚ))))) =
      (fun e => Option.map (roundTo 4)
        (if (catScores perField e).isEmpty then none
         else some ((catScores perField e).sum / ((catScores perField e).length : ℚ)))) := by
    funext e
    by_cases hc : (catScores perField e).isEmpty <;> simp [hc]
  rw [hfe]

end GNS

namespace GNS

/-- C3: for every record with at least one analyzed field, the emotion
overall dictionary exists and holds, for each category (in the fixed
enumeration order) scored by at least one analyzed field, the
4-decimal-rounded mean of those scores - a field missing a category is
excluded from that mean, not counted as zero; the dominant pair, when
present, is the first entry of maximal score (enumeration-order
tie-break), and its score is the 4-decimal rounding of the maximal
unrounded category mean. -/
theorem claim3_overall_emotion (c : String → Option (List (String × ℚ)))
    (fields : List String) (article : Record)
    (h : ∃ f ∈ fields, analyzable article f = true) :
    EmoOverallSpec c fields article := by
  have h' : ∃ f ∈ fields, pyBlank (getText article f) = false := by
    obtain ⟨f, hf, hb⟩ := h
    refine ⟨f, hf, ?_⟩
    rw [analyzable] at hb
    simpa using hb
  have hne := buildPerField_ne_nil (emotion_analyze_text c) article fields h'
  have hif : (buildPerField (emotion_analyze_text c) article fields).isEmpty = false := by
    cases hbp : buildPerField (emotion_analyze_text c) article fields with
    | nil => exact absurd hbp hne
    | cons a l => rfl
  refine ⟨⟨buildPerField (emotion_analyze_text c) article fields,
    some ⟨emoOverallScores (buildPerField (emotion_analyze_text c) article fields),
      pyMaxKey (fun p => p.2)
        (emoOverallScores (buildPerField (emotion_analyze_text c) article fields))⟩⟩,
    ?_, hne,
    ⟨emoOverallScores (buildPerField (emotion_analyze_text c) article fields),
      pyMaxKey (fun p => p.2)
        (emoOverallScores (buildPerField (emotion_analyze_text c) article fields))⟩,
    rfl, emoOverallScores_eq _, ?_, ?_⟩
  · rw [emoAnnotate_def]
    simp only [hif, Bool.false_eq_true, if_false]
    exact assocGet_assocSet_self article _ _
  · cases hmk : pyMaxKey (fun p => (p.2 : ℚ))
        (emoOverallScores (buildPerField (emotion_analyze_text c) article fields)) with
    | none =>
      refine Or.inl ⟨?_, rfl⟩
      cases hsc : emoOverallScores (buildPerField (emotion_analyze_text c) article fields) with
      | nil => rfl
      | cons s ss =>
        rw [hsc, pyMaxKey] at hmk
        cases hmk
    | some d => exact Or.inr ⟨d, rfl, pyMaxKey_isFirstMax _ _ _ hmk⟩
  · intro d hd
    simp only [] at hd
    have hfm := pyMaxKey_isFirstMax _ _ _ hd
    have hsne : emoOverallScores (buildPerField (emotion_analyze_text c) article fields) ≠ [] :=
      List.ne_nil_of_mem hfm.mem
    have hmeansne : catMeans (buildPerField (emotion_analyze_text c) article fields) ≠ [] := by
      intro hmeq
      have := emoScores_snd_means (buildPerField (emotion_analyze_text c) article fields)
      rw [hmeq, List.map_nil, List.map_eq_nil_iff] at this
      exact hsne this
    obtain ⟨M, hMmem, hMmax⟩ := exists_max_mem hmeansne
    refine ⟨M, hMmem, ?_, hMmax⟩
    have h1 : roundTo 4 M ∈
        (emoOverallScores (buildPerField (emotion_analyze_text c) article fields)).map
          (fun p => p.2) := by
      rw [emoScores_snd_means]
      exact List.mem_map_of_mem _ hMmem
    obtain ⟨y, hy, hy2⟩ := List.mem_map.mp h1
    have hle1 : roundTo 4 M ≤ d.2 := hy2 ▸ hfm.key_le y hy
    have h2 : d.2 ∈
        (catMeans (buildPerField (emotion_analyze_text c) article fields)).map (roundTo 4) := by
      rw [← emoScores_snd_means]
      exact List.mem_map_of_mem _ hfm.mem
    obtain ⟨m1, hm1, hm1e⟩ := List.mem_map.mp h2
    have hle2 : d.2 ≤ roundTo 4 M := by
      rw [← hm1e]
      exact roundTo_mono 4 (hMmax m1 hm1)
    exact le_antisymm hle2 hle1

theorem claim3_overall_emotion_witness :
    (∃ f ∈ ["title", "description"],
        analyzable [("title", Value.vstr "Bad war news")] f = true)
  ∧ EmoOverallSpec (fun _ => some [("anger", 1), ("joy", 0)]) ["title", "description"]
      [("title", Value.vstr "Bad war news")] :=
  ⟨by decide,
   claim3_overall_emotion (fun _ => some [("anger", 1), ("joy", 0)])
     ["title", "description"] [("title", Value.vstr "Bad war news")] (by decide)⟩

end GNS

namespace GNS

theorem count_partition (l : List SentResult) :
    l.length = (l.filter (fun o => o.label = "POSITIVE")).length
      + (l.filter (fun o => o.label = "NEGATIVE")).length
      + (l.filter (fun o => ¬(o.label = "POSITIVE") ∧ ¬(o.label = "NEGATIVE"))).length := by
  induction l with
  | nil => rfl
  | cons o rest ih =>
    by_cases h1 : o.label = "POSITIVE"
    · have h2 : ¬(o.label = "NEGATIVE") := by rw [h1]; decide
      simp [List.filter_cons, h1, h2] at ih ⊢
      omega
    · by_cases h2 : o.label = "NEGATIVE"
      · simp [List.filter_cons, h1, h2] at ih ⊢
        omega
      · simp [List.filter_cons, h1, h2] at ih ⊢
        omega

theorem sent_collect_eq (arts : List Record) :
    arts.foldl
      (fun acc a =>
        match getSentOverall a with
        | some o => acc ++ [o]
        | none => acc)
      [] = arts.filterMap getSentOverall := by
  have h := foldl_opt_append
    (fun acc a =>
      match getSentOverall a with
      | some o => acc ++ [o]
      | none => acc)
    getSentOverall
    (fun acc a => by cases h : getSentOverall a <;> simp [h])
    arts []
  simpa using h

theorem roundTo_two_hundred : roundTo 2 (100 : ℚ) = 100 := by
  with_unfolding_all decide

theorem roundTo_two_zero : roundTo 2 (0 : ℚ) = 0 := by
  with_unfolding_all decide

end GNS

namespace GNS

/-- C4: whenever the sentiment statistics are non-empty, `neutral` is
`total - positive - negative` (folding NEUTRAL and ERROR overall labels
together), the percentages are 2-decimal-rounded and the mean confidence
4-decimal-rounded; consequently an all-POSITIVE corpus reports
`positive_percent = 100` and zero negative and neutral counts and
percentages. -/
theorem claim4_sentiment_statistics (arts : List Record) (s : SentStats)
    (hs : get_sentiment_statistics arts = some s) : SentStatsSpec arts s := by
  simp only [get_sentiment_statistics] at hs
  by_cases hemp : arts.isEmpty
  · rw [if_pos hemp] at hs; cases hs
  rw [if_neg hemp, sent_collect_eq] at hs
  cases hovs : arts.filterMap getSentOverall with
  | nil =>
    rw [hovs] at hs
    simp [sentStatsOfOveralls] at hs
  | cons o0 os =>
    rw [hovs] at hs
    simp only [sentStatsOfOveralls] at hs
    injection hs with hs
    subst hs
    unfold SentStatsSpec
    rw [hovs]
    refine ⟨rfl, rfl, rfl, rfl, ?_, rfl, rfl, rfl, rfl, ?_⟩
    · have hp := count_partition (o0 :: os)
      simp only []
      omega
    · intro hall
      have hpos : (o0 :: os).filter (fun o => o.label = "POSITIVE") = o0 :: os := by
        rw [List.filter_eq_self]
        intro a ha
        simpa using hall a ha
      have hneg : (o0 :: os).filter (fun o => o.label = "NEGATIVE") = [] := by
        rw [List.filter_eq_nil_iff]
        intro a ha
        simp [hall a ha]
      refine ⟨?_, ?_, ?_, ?_, ?_⟩
      · show roundTo 2 _ = 100
        rw [hpos]
        have hlen0 : (((o0 :: os).length : ℕ) : ℚ) ≠ 0 := by
          simp only [List.length_cons, Nat.cast_add, Nat.cast_one]
          positivity
        rw [div_self hlen0, one_mul, roundTo_two_hundred]
      · show ((o0 :: os).filter (fun o => o.label = "NEGATIVE")).length = 0
        rw [hneg]
        rfl
      · show (((o0 :: os).length : ℤ) - _ - _ : ℤ) = 0
        rw [hpos, hneg]
        simp
      · show roundTo 2 _ = 0
        rw [hneg]
        simpa using roundTo_two_zero
      · show roundTo 2 _ = 0
        rw [hpos, hneg]
        norm_num [roundTo_two_zero]

end GNS

namespace GNS

theorem claim4_sentiment_statistics_witness :
    get_sentiment_statistics
        [[("sentiment_analysis", Value.vsmap ⟨[], some ⟨"POSITIVE", 1⟩⟩)]] =
      some ⟨1, 1, 0, 0, 100, 0, 0, 1⟩
  ∧ SentStatsSpec [[("sentiment_analysis", Value.vsmap ⟨[], some ⟨"POSITIVE", 1⟩⟩)]]
      ⟨1, 1, 0, 0, 100, 0, 0, 1⟩ :=
  ⟨by with_unfolding_all decide,
   claim4_sentiment_statistics
     [[("sentiment_analysis", Value.vsmap ⟨[], some ⟨"POSITIVE", 1⟩⟩)]]
     ⟨1, 1, 0, 0, 100, 0, 0, 1⟩ (by with_unfolding_all decide)⟩

end GNS

namespace GNS

theorem emo_inner_fold (o : EmoOverall) :
    ∀ (l : List String), l.Nodup → ∀ (tot : String → List ℚ) (e : String),
      (l.foldl
        (fun tot emotion =>
          match assocGet o.scores emotion with
          | some s => fun e => if e = emotion then tot e ++ [s] else tot e
          | none => tot)
        tot) e
      = tot e ++ (if e ∈ l then (assocGet o.scores e).toList else []) := by
  intro l
  induction l with
  | nil =>
    intro _ tot e
    simp
  | cons em rest ih =>
    intro hnd tot e
    have hnd' : rest.Nodup := (List.nodup_cons.mp hnd).2
    rw [List.foldl_cons]
    by_cases he : e = em
    · subst he
      have hnotin : e ∉ rest := (List.nodup_cons.mp hnd).1
      rw [ih hnd' _ e]
      cases hs : assocGet o.scores e with
      | some s => simp [hs, hnotin]
      | none => simp [hs, hnotin]
    · rw [ih hnd' _ e]
      cases hs : assocGet o.scores em with
      | some s => simp [hs, he]
      | none => simp [hs, he]

end GNS

namespace GNS

theorem collectEmo_aux :
    ∀ (arts : List Record) (tot : String → List ℚ) (doms : List String),
      (arts.foldl collectEmoStep (tot, doms)).1 =
        (fun e => tot e ++ specEmoTotals (arts.filterMap getTruthyEmoOverall) e)
      ∧ (arts.foldl collectEmoStep (tot, doms)).2 =
        doms ++ specEmoDoms (arts.filterMap getTruthyEmoOverall) := by
  intro arts
  induction arts with
  | nil =>
    intro tot doms
    constructor
    · funext e
      simp [specEmoTotals]
    · simp [specEmoDoms]
  | cons r rest ih =>
    intro tot doms
    rw [List.foldl_cons]
    cases hro : getEmoOverall r with
    | none =>
      have hstep : collectEmoStep (tot, doms) r = (tot, doms) := by
        simp [collectEmoStep, hro]
      have htr : getTruthyEmoOverall r = none := by
        rw [getTruthyEmoOverall, hro]
      rw [hstep]
      simp only [List.filterMap_cons, htr]
      exact ih tot doms
    | some o =>
      by_cases hT : o.isTruthy
      · have htr : getTruthyEmoOverall r = some o := by
          rw [getTruthyEmoOverall, hro]
          simp [hT]
        have hstep : collectEmoStep (tot, doms) r =
            (EMOTIONS.foldl
              (fun tot emotion =>
                match assocGet o.scores emotion with
                | some s => fun e => if e = emotion then tot e ++ [s] else tot e
                | none => tot) tot,
             doms ++ (o.dominant.map (fun d => d.1)).toList) := by
          simp only [collectEmoStep, hro, hT, if_true]
          cases hd : o.dominant <;> simp [hd]
        rw [hstep]
        simp only [List.filterMap_cons, htr]
        obtain ⟨ih1, ih2⟩ := ih
          (EMOTIONS.foldl
            (fun tot emotion =>
              match assocGet o.scores emotion with
              | some s => fun e => if e = emotion then tot e ++ [s] else tot e
              | none => tot) tot)
          (doms ++ (o.dominant.map (fun d => d.1)).toList)
        constructor
        · rw [ih1]
          funext e
          rw [emo_inner_fold o EMOTIONS (by decide) tot e, List.append_assoc]
          congr 1
          by_cases hmem : e ∈ EMOTIONS
          · simp only [specEmoTotals, hmem, if_true, List.filterMap_cons]
            cases hs : assocGet o.scores e <;> simp [hs]
          · simp [specEmoTotals, hmem]
        · rw [ih2, List.append_assoc]
          congr 1
          simp only [specEmoDoms, List.filterMap_cons]
          cases hd : o.dominant <;> simp [hd]
      · have htr : getTruthyEmoOverall r = none := by
          rw [getTruthyEmoOverall, hro]
          simp [hT]
        have hstep : collectEmoStep (tot, doms) r = (tot, doms) := by
          simp [collectEmoStep, hro, hT]
        rw [hstep]
        simp only [List.filterMap_cons, htr]
        exact ih tot doms

end GNS

namespace GNS

/-- C1 (amended): both statistics functions skip records without a (truthy)
overall sub-result in every count, average and percentage; the sentiment
total is the count of records WITH an overall result, but the emotion
`total_analyzed` is the full record count - the original claim is wrong for
the emotion aggregator's total. -/
theorem claim1_amended_stats_skip (arts : List Record) : StatsSkipSpec arts := by
  have hsent : get_sentiment_statistics arts =
      sentStatsOfOveralls (arts.filterMap getSentOverall) := by
    simp only [get_sentiment_statistics, sent_collect_eq]
    by_cases hemp : arts.isEmpty
    · rw [if_pos hemp]
      have hnil : arts = [] := List.isEmpty_iff.mp hemp
      subst hnil
      rfl
    · rw [if_neg hemp]
  have hemo : arts ≠ [] →
      get_emotion_statistics arts =
        some (emoStatsFrom arts.length
          (specEmoTotals (arts.filterMap getTruthyEmoOverall))
          (specEmoDoms (arts.filterMap getTruthyEmoOverall))) := by
    intro hne
    have hemp : arts.isEmpty = false := by
      cases arts with
      | nil => exact absurd rfl hne
      | cons a l => rfl
    simp only [get_emotion_statistics, hemp, Bool.false_eq_true, if_false]
    obtain ⟨h1, h2⟩ := collectEmo_aux arts (fun _ => []) []
    have h1' : (collectEmo arts).1 = specEmoTotals (arts.filterMap getTruthyEmoOverall) := by
      rw [collectEmo, h1]
      funext e
      simp
    have h2' : (collectEmo arts).2 = specEmoDoms (arts.filterMap getTruthyEmoOverall) := by
      rw [collectEmo, h2]
      simp
    rw [h1', h2']
  refine ⟨hsent, ?_, hemo, ?_⟩
  · intro s hsome
    rw [hsent] at hsome
    cases hovs : arts.filterMap getSentOverall with
    | nil =>
      rw [hovs] at hsome
      simp [sentStatsOfOveralls] at hsome
    | cons o0 os =>
      rw [hovs] at hsome
      simp only [sentStatsOfOveralls] at hsome
      injection hsome with hsome
      subst hsome
      rfl
  · intro es hes
    by_cases hne : arts = []
    · subst hne
      rw [show get_emotion_statistics [] = none from rfl] at hes
      cases hes
    · rw [hemo hne] at hes
      injection hes with hes
      subst hes
      rfl

/-- C1 counterexample: a one-record corpus whose single record has NO
overall emotion result still reports `total_analyzed = 1` in the emotion
statistics, although the count of records with an overall result is 0 - so
"the reported total is the count of records WITH an overall result" is
false for `get_emotion_statistics`. -/
theorem claim1_counterexample :
    (get_emotion_statistics [([] : Record)]).map EmoStats.total_analyzed = some 1
  ∧ [([] : Record)].filterMap getEmoOverall = [] := by
  constructor
  · with_unfolding_all decide
  · rfl

theorem claim1_amended_stats_skip_witness :
    ([[("sentiment_analysis", Value.vsmap ⟨[], some ⟨"POSITIVE", 1⟩⟩)], ([] : Record)] ≠ [])
  ∧ get_sentiment_statistics
      [[("sentiment_analysis", Value.vsmap ⟨[], some ⟨"POSITIVE", 1⟩⟩)], ([] : Record)] =
      sentStatsOfOveralls
        ([[("sentiment_analysis", Value.vsmap ⟨[], some ⟨"POSITIVE", 1⟩⟩)],
          ([] : Record)].filterMap getSentOverall)
  ∧ (⟨1, 1, 0, 0, 100, 0, 0, 1⟩ : SentStats).total_analyzed =
      ([[("sentiment_analysis", Value.vsmap ⟨[], some ⟨"POSITIVE", 1⟩⟩)],
        ([] : Record)].filterMap getSentOverall).length
  ∧ get_emotion_statistics
      [[("sentiment_analysis", Value.vsmap ⟨[], some ⟨"POSITIVE", 1⟩⟩)], ([] : Record)] =
      some (emoStatsFrom
        ([[("sentiment_analysis", Value.vsmap ⟨[], some ⟨"POSITIVE", 1⟩⟩)],
          ([] : Record)]).length
        (specEmoTotals
          ([[("sentiment_analysis", Value.vsmap ⟨[], some ⟨"POSITIVE", 1⟩⟩)],
            ([] : Record)].filterMap getTruthyEmoOverall))
        (specEmoDoms
          ([[("sentiment_analysis", Value.vsmap ⟨[], some ⟨"POSITIVE", 1⟩⟩)],
            ([] : Record)].filterMap getTruthyEmoOverall)))
  ∧ (⟨2, EMOTIONS.map (fun e => (e, 0)), [], none, []⟩ : EmoStats).total_analyzed =
      ([[("sentiment_analysis", Value.vsmap ⟨[], some ⟨"POSITIVE", 1⟩⟩)],
        ([] : Record)]).length :=
  ⟨by decide,
   (claim1_amended_stats_skip _).1,
   (claim1_amended_stats_skip
     [[("sentiment_analysis", Value.vsmap ⟨[], some ⟨"POSITIVE", 1⟩⟩)], ([] : Record)]).2.1
     ⟨1, 1, 0, 0, 100, 0, 0, 1⟩ (by with_unfolding_all decide),
   (claim1_amended_stats_skip _).2.2.1 (by decide),
   (claim1_amended_stats_skip
     [[("sentiment_analysis", Value.vsmap ⟨[], some ⟨"POSITIVE", 1⟩⟩)], ([] : Record)]).2.2.2
     ⟨2, EMOTIONS.map (fun e => (e, 0)), [], none, []⟩ (by with_unfolding_all decide)⟩

end GNS
